import Mathlib

/-!
Verification development for the shadowSpeaker chunked-audio player.

The definitions below are a shallow embedding of the repository's core:

* `src/app/util/sample.ts` — the `AudioSample` chunked buffer manager
  (`initSample`, `isLoaded`, `createSegmentBuffer` with its background
  prefetch), and the splitter's `floatTo16BitPCM` quantizer;
* `src/app/page.tsx` — SRT-segment ingestion (boundary widening), the
  scene-range computation inside `playAudioSegment`, and the
  play/stop/error-handling controller flow.

JavaScript numbers are modelled as rationals (`ℚ`) with `Math.floor`
rendered as `Int.floor` / `Int.fdiv`; typed-array sample data is modelled
as `List ℚ`; the single-threaded async semantics is modelled by explicit
state passing, with a dedicated small-step interleaving model for the
concurrent-decode question.
-/

namespace ShadowSpeaker

/-- Source constant `AUDIO_BUFFER_SEGMENT_SEC = 60` (sample.ts line 4). -/
def AUDIO_BUFFER_SEGMENT_SEC : ℕ := 60

/-- Source constant `MP3_PADING_SAMPLES = 1105` (sample.ts line 6):
the fixed encoder priming offset skipped at the start of every chunk. -/
def MP3_PADING_SAMPLES : ℤ := 1105

/-- The index arithmetic computed at the top of `createSegmentBuffer`
(sample.ts lines 58–70). -/
structure SegIdx where
  sampleRate : ℕ
  segmentStartIdx : ℤ
  segmentEndIdx : ℤ
  bufferDuration : ℤ
  startBufferIdx : ℤ
  endBufferIdx : ℤ
  startOffsetInBuffer : ℤ
  endOffsetInBuffer : ℤ
  totalSamples : ℤ
  deriving Repr, DecidableEq

/-- Embeds sample.ts lines 58–70:
`segmentStartIdx = Math.floor(startSec * sampleRate)`,
`segmentEndIdx = Math.floor((startSec + durationSec) * sampleRate)`,
`bufferDuration = AUDIO_BUFFER_SEGMENT_SEC * sampleRate`,
`startBufferIdx = Math.floor(segmentStartIdx / bufferDuration)` (floor
division, rendered as `Int.fdiv`), likewise `endBufferIdx`, and the two
offsets and total sample count. -/
def segIdx (startSec durationSec : ℚ) (sampleRate : ℕ) : SegIdx :=
  let segmentStartIdx : ℤ := ⌊startSec * (sampleRate : ℚ)⌋
  let segmentEndIdx : ℤ := ⌊(startSec + durationSec) * (sampleRate : ℚ)⌋
  let bufferDuration : ℤ := (AUDIO_BUFFER_SEGMENT_SEC : ℤ) * (sampleRate : ℤ)
  let startBufferIdx : ℤ := Int.fdiv segmentStartIdx bufferDuration
  let endBufferIdx : ℤ := Int.fdiv segmentEndIdx bufferDuration
  { sampleRate := sampleRate
    segmentStartIdx := segmentStartIdx
    segmentEndIdx := segmentEndIdx
    bufferDuration := bufferDuration
    startBufferIdx := startBufferIdx
    endBufferIdx := endBufferIdx
    startOffsetInBuffer := segmentStartIdx - startBufferIdx * bufferDuration
    endOffsetInBuffer := segmentEndIdx - endBufferIdx * bufferDuration
    totalSamples := segmentEndIdx - segmentStartIdx }

/-- Embeds the read-range case analysis of sample.ts lines 91–104:
the `(readStart, readEnd)` pair chosen for chunk `bufIdx`. -/
def readRange (p : SegIdx) (bufIdx : ℤ) : ℤ × ℤ :=
  let padding := MP3_PADING_SAMPLES
  if bufIdx = p.startBufferIdx ∧ bufIdx = p.endBufferIdx then
    (padding + p.startOffsetInBuffer, padding + p.startOffsetInBuffer + p.totalSamples)
  else if bufIdx = p.startBufferIdx then
    (padding + p.startOffsetInBuffer, padding + p.bufferDuration)
  else if bufIdx = p.endBufferIdx then
    (padding, padding + p.endOffsetInBuffer)
  else
    (padding, padding + p.bufferDuration)

/-- Embeds `Float32Array.subarray(readStart, readEnd)` (sample.ts
lines 105–107) for the non-negative index ranges produced by `readRange`:
take the elements at positions `[a, b)`, clamped to the array bounds. -/
def sliceList (xs : List ℚ) (a b : ℤ) : List ℚ :=
  (xs.drop a.toNat).take (b - a).toNat

/-- Number of chunks touched by the request: `endBufferIdx - startBufferIdx + 1`
(the inclusive `for` loop of sample.ts line 81). -/
def chunkCount (p : SegIdx) : ℕ := (p.endBufferIdx - p.startBufferIdx).toNat + 1

/-- The chunk indices the loop of sample.ts line 81 visits, in order. -/
def touchedChunks (p : SegIdx) : List ℤ :=
  (List.range (chunkCount p)).map (fun (k : ℕ) => p.startBufferIdx + (k : ℤ))

/-- The sub-range of chunk `i`'s decoded channel data that the loop copies:
`getChannelData(channel).subarray(readStart, readEnd)` (sample.ts 105–107),
with `cd i` standing for chunk `i`'s decoded channel data. -/
def piece (p : SegIdx) (cd : ℤ → List ℚ) (i : ℤ) : List ℚ :=
  sliceList (cd i) (readRange p i).1 (readRange p i).2

/-- Embeds the inner chunk loop of sample.ts lines 80–110 for one channel:
starting at chunk `bufIdx` with accumulator `writeOffset = w`, emit `n`
writes `(writeOffset, channelData)` where `writeOffset` advances by
`channelData.length` after each copy. -/
def writesAux (p : SegIdx) (cd : ℤ → List ℚ) : ℕ → ℤ → ℕ → List (ℕ × List ℚ)
  | 0, _, _ => []
  | n + 1, bufIdx, w =>
    let channelData := piece p cd bufIdx
    (w, channelData) :: writesAux p cd n (bufIdx + 1) (w + channelData.length)

/-- The full sequence of `(writeOffset, data)` copies one channel pass of
`createSegmentBuffer` performs (sample.ts lines 80–110): chunks
`startBufferIdx..endBufferIdx` in ascending order, `writeOffset` from 0. -/
def copyWrites (p : SegIdx) (cd : ℤ → List ℚ) : List (ℕ × List ℚ) :=
  writesAux p cd (chunkCount p) p.startBufferIdx 0

/-- Length of the slice the loop copies out of chunk `i`. -/
def pieceLen (p : SegIdx) (cd : ℤ → List ℚ) (i : ℤ) : ℕ := (piece p cd i).length

/-- Sum of the lengths of the pieces copied from the first `k` touched
chunks: the write offset at which the `k`-th piece lands. -/
def offsetAt (p : SegIdx) (cd : ℤ → List ℚ) (b : ℤ) (k : ℕ) : ℕ :=
  ((List.range k).map (fun (j : ℕ) => pieceLen p cd (b + (j : ℤ)))).sum

/-- A decoded audio buffer: `{numberOfChannels, length, sampleRate,
per-channel sample arrays}` (the platform `AudioBuffer`). `length` is the
allocated per-channel sample count fixed at creation. -/
structure AudioBufferM where
  numberOfChannels : ℕ
  length : ℕ
  sampleRate : ℕ
  data : List (List ℚ)
  deriving DecidableEq

/-- `getChannelData(c)`. -/
def AudioBufferM.channel (ab : AudioBufferM) (c : ℕ) : List ℚ := ab.data.getD c []

/-- A `ChunkCache` slot (`this.buffers[idx]`, a `Promise<AudioBuffer>`), as
seen by any later await: either a promise that settles with a decoded
buffer, or a promise that never settles (the prefetch executor of sample.ts
lines 122–131 never rejects the outer promise and only resolves on success,
so a read/decode failure inside it leaves the promise forever pending). -/
inductive CacheEntry where
  | resolved (ab : AudioBufferM)
  | pendingForever
  deriving DecidableEq

/-- The `AudioSample` instance state (sample.ts lines 9–24): the chunk
cache plus the sample rate / channel count discovered from chunk 0.
Constructor defaults: `numOfChannels = 1`, `sampleRate = 44100`. -/
structure AudioSampleState where
  buffers : ℤ → Option CacheEntry
  numOfChannels : ℕ
  sampleRate : ℕ

/-- Fresh `AudioSample` as built by the constructor. -/
def AudioSampleState.initial : AudioSampleState :=
  { buffers := fun _ => none, numOfChannels := 1, sampleRate := 44100 }

/-- The project-scoped OPFS chunk store plus the platform decoder, for one
project: `exist i` models `opfsExist(project, audio_segment_i.mp3)`;
`readDecode i` models `opfsRead` followed by `decodeAudioData` — `none`
when the read or the decode rejects (missing file / corrupt data). -/
structure OpfsModel where
  exist : ℤ → Bool
  readDecode : ℤ → Option AudioBufferM

/-- Install a cache entry (`this.buffers[i] = ...`). -/
def updateBuf (f : ℤ → Option CacheEntry) (i : ℤ) (e : CacheEntry) :
    ℤ → Option CacheEntry :=
  fun j => if j = i then some e else f j

/-- Outcome of one async call as observed by its caller: it settles with a
value, settles with a thrown error, or never settles at all. -/
inductive CallResult (α : Type) where
  | ok (value : α)
  | error (msg : String)
  | hangs
  deriving DecidableEq

/-- Embeds `initSample` (sample.ts lines 26–46): clear the cache first
(`this.buffers = {}`), then return `false` if chunk 0 is absent; otherwise
read and decode chunk 0, record its channel count and sample rate, seed the
cache with it and return `true`. A decode rejection propagates. -/
def initSample (fs : OpfsModel) (st : AudioSampleState) :
    CallResult (AudioSampleState × Bool) :=
  let st1 : AudioSampleState := { st with buffers := fun _ => none }
  if fs.exist 0 = false then .ok (st1, false)
  else
    match fs.readDecode 0 with
    | none => .error "decode failed"
    | some ab =>
      .ok ({ buffers := updateBuf (fun _ => none) 0 (.resolved ab),
             numOfChannels := ab.numberOfChannels,
             sampleRate := ab.sampleRate }, true)

/-- Embeds `isLoaded` (sample.ts line 48): `this.buffers[0] !== undefined`. -/
def isLoaded (st : AudioSampleState) : Bool := (st.buffers 0).isSome

/-- Embeds the cache-miss block of sample.ts lines 82–89 followed by the
await of line 89 for a single chunk index: on a miss, read and decode the
chunk file (the resolved promise is installed only afterwards, line 87);
on a resolved entry, await it; on a never-settling entry, hang. -/
def fetchChunk (fs : OpfsModel) (st : AudioSampleState) (i : ℤ) :
    CallResult AudioSampleState :=
  match st.buffers i with
  | none =>
    match fs.readDecode i with
    | none => .error "decode failed"
    | some ab => .ok { st with buffers := updateBuf st.buffers i (.resolved ab) }
  | some (.resolved _) => .ok st
  | some .pendingForever => .hangs

/-- Ensure every chunk in the list is resolved, in list order (the inner
loop of sample.ts line 81, for the first channel pass — later channel
passes hit the cache and add nothing). -/
def fetchChunks (fs : OpfsModel) : AudioSampleState → List ℤ → CallResult AudioSampleState
  | st, [] => .ok st
  | st, i :: rest =>
    match fetchChunk fs st i with
    | .ok st1 => fetchChunks fs st1 rest
    | .error e => .error e
    | .hangs => .hangs

/-- Channel `ch` of the decoded chunk cached at index `i` (used by the copy
loop once every touched chunk is resolved). -/
def cacheChannel (st : AudioSampleState) (ch : ℕ) : ℤ → List ℚ := fun i =>
  match st.buffers i with
  | some (.resolved ab) => ab.channel ch
  | _ => []

/-- `TypedArray.set(src, off)` into `dst` (sample.ts line 108). -/
def setAt (dst : List ℚ) (src : List ℚ) (off : ℕ) : List ℚ :=
  dst.take off ++ src ++ dst.drop (off + src.length)

/-- Perform the sequence of writes of one channel pass. -/
def applyWrites (dst : List ℚ) (ws : List (ℕ × List ℚ)) : List ℚ :=
  ws.foldl (fun acc w => setAt acc w.2 w.1) dst

/-- The output buffer `createSegmentBuffer` assembles (sample.ts lines
72–111): allocated with `createBuffer(numberOfChannels, totalSamples,
sampleRate)` (zero-initialized), then filled channel by channel by the
copy loop, reading from the (by then fully resolved) chunk cache. -/
def mkSegmentBuffer (p : SegIdx) (st : AudioSampleState) : AudioBufferM :=
  { numberOfChannels := st.numOfChannels
    length := p.totalSamples.toNat
    sampleRate := st.sampleRate
    data := (List.range st.numOfChannels).map (fun ch =>
      applyWrites (List.replicate p.totalSamples.toNat 0)
        (copyWrites p (cacheChannel st ch))) }

/-- Embeds the fire-and-forget prefetch of sample.ts lines 113–132: with
`nextBufIdx = endBufferIdx + 1`, do nothing if the slot is already
populated or no file exists; otherwise install a promise that resolves
with the decoded chunk on success and never settles if the read or decode
inside the executor rejects. Its only effect is on the cache. -/
def prefetchStep (fs : OpfsModel) (st : AudioSampleState) (endBufferIdx : ℤ) :
    AudioSampleState :=
  let nextBufIdx := endBufferIdx + 1
  if (st.buffers nextBufIdx).isSome then st
  else if fs.exist nextBufIdx = false then st
  else
    match fs.readDecode nextBufIdx with
    | some ab => { st with buffers := updateBuf st.buffers nextBufIdx (.resolved ab) }
    | none => { st with buffers := updateBuf st.buffers nextBufIdx .pendingForever }

/-- Embeds `createSegmentBuffer` (sample.ts lines 50–135), linearized for
one caller: throw `Not yet loaded` if chunk 0 is not cached; compute the
segment indices; resolve every touched chunk in ascending order (a decode
rejection propagates, a never-settling cache entry hangs the call);
assemble the output buffer; then run the prefetch (which the caller does
not await — its cache effect is sequenced into the returned state) and
return the buffer. -/
def createSegmentBuffer (fs : OpfsModel) (st : AudioSampleState)
    (startSec durationSec : ℚ) : CallResult (AudioBufferM × AudioSampleState) :=
  if st.buffers 0 = none then .error "Not yet loaded"
  else
    let p := segIdx startSec durationSec st.sampleRate
    match fetchChunks fs st (touchedChunks p) with
    | .error e => .error e
    | .hangs => .hangs
    | .ok st1 => .ok (mkSegmentBuffer p st1, prefetchStep fs st1 p.endBufferIdx)

/-- Truncation toward zero (`ToIntegerOrInfinity` as applied on assignment
to an `Int16Array` element). -/
def truncQ (x : ℚ) : ℤ := if x < 0 then ⌈x⌉ else ⌊x⌋

/-- JavaScript conversion of a number to a 16-bit signed integer on
storage into an `Int16Array`: truncate toward zero, wrap modulo `2^16`,
reinterpret as signed. -/
def int16Convert (x : ℚ) : ℤ :=
  let w := truncQ x % 65536
  if w < 32768 then w else w - 65536

/-- Embeds `floatTo16BitPCM` (sample.ts lines 219–226): clamp each sample
to `[-1, 1]`, scale negatives by `0x8000` and non-negatives by `0x7fff`,
and store into an `Int16Array` of the same length. -/
def floatTo16BitPCM (input : List ℚ) : List ℤ :=
  input.map (fun v =>
    let s := max (-1) (min 1 v)
    int16Convert (if s < 0 then s * 32768 else s * 32767))

/-- `Array.prototype.findIndex`: first index satisfying the predicate,
`-1` if none. -/
def jsFindIndex (l : List String) (pred : String → Bool) : ℤ :=
  match l.findIdx? pred with
  | some i => (i : ℤ)
  | none => -1

/-- `RangeInfo.type` (page.tsx lines 82–86). -/
inductive RangeType where
  | scene
  | selected
  deriving DecidableEq

/-- `RangeInfo` (page.tsx lines 82–86). -/
structure RangeInfoM where
  beginIdx : ℤ
  endIdx : ℤ
  type : RangeType
  deriving DecidableEq

/-- Embeds the scene-range computation of `playAudioSegment` (page.tsx
lines 316–329): `sceneBeginIdx = segments.findIndex(e => e.sceneId ===
sceneId)`; `sceneEndIdx = segments.findIndex(e => e.sceneId === sceneId +
1)` — note `sceneId` is a string, so `sceneId + 1` is the string
concatenation `sceneId + "1"`; `-1` results fall back to `index` and
`segments.length` respectively. Returns `(newBeginIdx, newEndIdx)`. -/
def sceneRange (sceneIds : List String) (index : ℕ) (sceneId : String) : ℤ × ℤ :=
  let sceneBeginIdx := jsFindIndex sceneIds (fun x => x = sceneId)
  let sceneEndIdx := jsFindIndex sceneIds (fun x => x = sceneId ++ "1")
  let newBeginIdx := if sceneBeginIdx = -1 then (index : ℤ) else sceneBeginIdx
  let newEndIdx := if sceneEndIdx = -1 then (sceneIds.length : ℤ) else sceneEndIdx
  (newBeginIdx, newEndIdx)

/-- A transcript segment after ingestion (page.tsx lines 75–80). -/
structure SegmentM where
  startTime : ℚ
  endTime : ℚ
  text : String
  sceneId : String
  deriving DecidableEq

/-- The part of `playInfo` the claims observe: its presence marks an
active source node; `rangeInfo` is the active loop window. -/
structure PlayInfoM where
  rangeInfo : Option RangeInfoM
  deriving DecidableEq

/-- Controller state: `playInfo` (None = `Idle`, no active source node),
the `segIndex` React state, its durable `localStorage` copy
(`lastPlayIndex`), and the status message. -/
structure ControllerState where
  playInfo : Option PlayInfoM
  segIndex : ℕ
  savedIndex : ℕ
  status : String
  deriving DecidableEq

/-- Embeds `playAudioSegment` (page.tsx lines 276–381), with the
`createSegmentBuffer` outcome supplied as `bufferOutcome`. Steps, in
source order: bail out unchanged when not loaded; stash the previous
`rangeInfo` and stop any current playback (`playInfo := none`); bail out
if `index` is out of bounds; set `segIndex` and persist it
(`savePlayIndex`); request the buffer for `[startTime, endTime)` — on
failure the `catch` of lines 377–380 sets the status to
`Error playing audio segment` and returns; on success resolve the range
(explicit range, else previous range, else freshly computed scene range)
unless single-loop, install the new `playInfo` and report progress.
Returns the new state and the `(startSec, durationSec)` passed to the
buffer manager (`none` if no request was made). The success-path status
text elides the range/scene suffix of line 365–370 (pure UI formatting). -/
def playAudioSegment (segments : List SegmentM) (loaded : Bool)
    (bufferOutcome : Except String Unit) (st : ControllerState)
    (index : ℕ) (singleEntryLoop : Bool) (initRangeInfo : Option RangeInfoM) :
    ControllerState × Option (ℚ × ℚ) :=
  if loaded = false then (st, none)
  else
    let prevRangeInfo := st.playInfo.bind (fun pi => pi.rangeInfo)
    let st1 : ControllerState := { st with playInfo := none }
    match segments.get? index with
    | none => (st1, none)
    | some segment =>
      let startSec := segment.startTime
      let durationSec := segment.endTime - segment.startTime
      let st2 : ControllerState := { st1 with segIndex := index, savedIndex := index }
      match bufferOutcome with
      | .error _ =>
        ({ st2 with status := "Error playing audio segment" }, some (startSec, durationSec))
      | .ok _ =>
        let rangeInfo : Option RangeInfoM :=
          if singleEntryLoop then none
          else
            some (match initRangeInfo with
              | some r => r
              | none =>
                match prevRangeInfo with
                | some r => r
                | none =>
                  let be := sceneRange (segments.map (fun sg => sg.sceneId))
                    index segment.sceneId
                  ⟨be.1, be.2, RangeType.scene⟩)
        let shown := index + 1
        let total := segments.length
        ({ st2 with playInfo := some ⟨rangeInfo⟩,
                    status := s!"current: {shown} / {total}" },
         some (startSec, durationSec))

/-- `MAX_GAP_MSEC = 400` (page.tsx line 250). -/
def MAX_GAP_MSEC : ℚ := 400

/-- Embeds the second ingestion `map` of page.tsx lines 241–262: each
segment's rounded `(startMsec, endMsec)` pair is widened using the gaps to
its neighbours' original (pre-adjustment) times — `all[idx-1]` /
`all[idx+1]` are `undefined` at the ends, giving gap 0 — and converted to
seconds. -/
def adjustSegments (all : List (ℤ × ℤ)) : List (ℚ × ℚ) :=
  all.enum.map (fun (pr : ℕ × (ℤ × ℤ)) =>
    let idx := pr.1
    let elem := pr.2
    let prevElem : Option (ℤ × ℤ) := if idx = 0 then none else all.get? (idx - 1)
    let nextElem : Option (ℤ × ℤ) := all.get? (idx + 1)
    let prevGapMsec : ℚ := match prevElem with
      | none => 0
      | some q => (elem.1 : ℚ) - (q.2 : ℚ)
    let nextGapMsec : ℚ := match nextElem with
      | none => 0
      | some q => (q.1 : ℚ) - (elem.2 : ℚ)
    let startMsec : ℚ := (elem.1 : ℚ) - min MAX_GAP_MSEC (prevGapMsec / 2)
    let endMsec : ℚ := (elem.2 : ℚ) + min MAX_GAP_MSEC (nextGapMsec / 2)
    (startMsec / 1000, endMsec / 1000))

/-- Concrete fixture: a tiny decoded chunk-0 buffer (1 channel, sample
rate 1). -/
def abFix : AudioBufferM := ⟨1, 0, 1, [[]]⟩

/-- Concrete fixture: a manager state with chunk 0 resolved, discovered
channel count 1 and sample rate 1. -/
def stFix : AudioSampleState :=
  ⟨fun j => if j = 0 then some (.resolved abFix) else none, 1, 1⟩

/-- Concrete fixture: a store where the chunk-1 file exists but every
read/decode fails. -/
def fsFailNext : OpfsModel := ⟨fun i => i == 1, fun _ => none⟩

/-- Concrete fixture: a store holding exactly chunk 0, which decodes to
`abFix`. -/
def fsChunk0 : OpfsModel :=
  ⟨fun i => i == 0, fun i => if i = 0 then some abFix else none⟩

/-- Modelled from the claim's words (spec §3, boundary widening), for
comparison with `adjustSegments`: a segment's start time is moved earlier
by `min(400 ms, previousGap/2)` and its end time later by
`min(400 ms, nextGap/2)`, where the gaps are to the neighbouring segments'
original (pre-adjustment) rounded times, taken as 0 at the ends; times are
then converted to seconds. -/
def specWiden (all : List (ℤ × ℤ)) (idx : ℕ) (a b : ℤ) : ℚ × ℚ :=
  let prevGap : ℚ := match (if idx = 0 then none else all.get? (idx - 1)) with
    | none => 0
    | some q => (a : ℚ) - (q.2 : ℚ)
  let nextGap : ℚ := match all.get? (idx + 1) with
    | none => 0
    | some q => (q.1 : ℚ) - (b : ℚ)
  (((a : ℚ) - min 400 (prevGap / 2)) / 1000, ((b : ℚ) + min 400 (nextGap / 2)) / 1000)

/-- Program counter of one `createSegmentBuffer` caller inside the
cache-miss block of sample.ts lines 82–89, for one fixed chunk index.
`checking` = about to run the synchronous check of line 82 (and, on a
miss, issue the `opfsRead` of line 83 in the same synchronous step);
`awaitingRead` = suspended at the `await opfsRead`; `awaitingDecode` =
suspended at the `await decodeAudioData`; `finished` = past line 89 (a
caller that found a resolved entry awaits it and finishes). -/
inductive TaskPC where
  | checking
  | awaitingRead
  | awaitingDecode
  | finished
  deriving DecidableEq

/-- Interleaving state for concurrent callers requesting the same chunk
index: whether `this.buffers[idx]` has been installed (it is installed
only at line 87, after both awaits), each caller's program counter, and
how many read-and-decode sequences have been issued against the store. -/
structure ConcState where
  cacheFilled : Bool
  pcs : List TaskPC
  reads : ℕ
  deriving DecidableEq

/-- One cooperative step of caller `t`: the event-loop scheduler resumes a
task and runs it up to its next suspension point. Each arm is the
synchronous code between two awaits in sample.ts lines 82–89. -/
def concStep (s : ConcState) (t : ℕ) : ConcState :=
  match s.pcs.get? t with
  | none => s
  | some pc =>
    match pc with
    | .checking =>
      if s.cacheFilled then { s with pcs := s.pcs.set t .finished }
      else { s with pcs := s.pcs.set t .awaitingRead, reads := s.reads + 1 }
    | .awaitingRead => { s with pcs := s.pcs.set t .awaitingDecode }
    | .awaitingDecode => { s with cacheFilled := true, pcs := s.pcs.set t .finished }
    | .finished => s

/-- Run a schedule (a list of task resumptions). -/
def concRun (s : ConcState) (sched : List ℕ) : ConcState := sched.foldl concStep s

/-- `n` concurrent callers, none started, cache slot empty, no reads. -/
def concInit (n : ℕ) : ConcState :=
  { cacheFilled := false, pcs := List.replicate n .checking, reads := 0 }

lemma offsetAt_succ_left (p : SegIdx) (cd : ℤ → List ℚ) (b : ℤ) (k : ℕ) :
    offsetAt p cd b (k + 1) = pieceLen p cd b + offsetAt p cd (b + 1) k := by
  unfold offsetAt
  rw [List.range_succ_eq_map]
  simp only [List.map_cons, List.map_map, List.sum_cons, Function.comp]
  congr 1
  · simp
  · refine congrArg List.sum (List.map_congr_left ?_)
    intro j _
    simp only [Function.comp_apply, Nat.succ_eq_add_one]
    congr 1
    push_cast
    ring

/-- Closed form of the copy loop: the `k`-th write is the `k`-th chunk's
piece, placed at the sum of the lengths of all earlier pieces. -/
lemma writesAux_eq (p : SegIdx) (cd : ℤ → List ℚ) :
    ∀ (n : ℕ) (b : ℤ) (w : ℕ),
      writesAux p cd n b w =
        (List.range n).map (fun (k : ℕ) => (w + offsetAt p cd b k, piece p cd (b + (k : ℤ)))) := by
  intro n
  induction n with
  | zero => intro b w; simp [writesAux]
  | succ n ih =>
    intro b w
    rw [writesAux, ih, List.range_succ_eq_map, List.map_cons, List.map_map]
    congr 1
    · simp [offsetAt]
    · refine List.map_congr_left ?_
      intro k _
      simp only [Function.comp_apply, Nat.succ_eq_add_one]
      rw [offsetAt_succ_left, ← add_assoc]
      congr 1
      · congr 1
        push_cast
        ring

/-- Specialization to the actual loop: `copyWrites` lists the pieces of the
touched chunks in ascending chunk order at consecutive write offsets. -/
lemma copyWrites_eq (p : SegIdx) (cd : ℤ → List ℚ) :
    copyWrites p cd =
      (List.range (chunkCount p)).map
        (fun (k : ℕ) => (offsetAt p cd p.startBufferIdx k, piece p cd (p.startBufferIdx + (k : ℤ)))) := by
  unfold copyWrites
  rw [writesAux_eq]
  simp

lemma bufferDuration_pos (s d : ℚ) (sr : ℕ) (hsr : 0 < sr) :
    0 < (segIdx s d sr).bufferDuration := by
  simp only [segIdx, AUDIO_BUFFER_SEGMENT_SEC]
  positivity

lemma segmentStartIdx_le_endIdx (s d : ℚ) (sr : ℕ) (hd : 0 ≤ d) :
    (segIdx s d sr).segmentStartIdx ≤ (segIdx s d sr).segmentEndIdx := by
  simp only [segIdx]
  apply Int.floor_le_floor
  have h0 : (0:ℚ) ≤ (sr : ℚ) := by positivity
  nlinarith

lemma startBufferIdx_le_endBufferIdx (s d : ℚ) (sr : ℕ) (hd : 0 ≤ d) (hsr : 0 < sr) :
    (segIdx s d sr).startBufferIdx ≤ (segIdx s d sr).endBufferIdx := by
  have hB := bufferDuration_pos s d sr hsr
  have hle := segmentStartIdx_le_endIdx s d sr hd
  simp only [segIdx] at hB hle ⊢
  rw [Int.fdiv_eq_ediv _ (le_of_lt hB), Int.fdiv_eq_ediv _ (le_of_lt hB)]
  exact Int.ediv_le_ediv hB hle

lemma startOffsetInBuffer_bounds (s d : ℚ) (sr : ℕ) (hsr : 0 < sr) :
    0 ≤ (segIdx s d sr).startOffsetInBuffer ∧
      (segIdx s d sr).startOffsetInBuffer < (segIdx s d sr).bufferDuration := by
  have hB := bufferDuration_pos s d sr hsr
  simp only [segIdx] at hB ⊢
  rw [Int.fdiv_eq_ediv _ (le_of_lt hB)]
  rw [show ∀ a b : ℤ, a - a / b * b = a - b * (a / b) from fun a b => by ring]
  rw [← Int.emod_def]
  exact ⟨Int.emod_nonneg _ (ne_of_gt hB), Int.emod_lt_of_pos _ hB⟩

lemma endOffsetInBuffer_bounds (s d : ℚ) (sr : ℕ) (hsr : 0 < sr) :
    0 ≤ (segIdx s d sr).endOffsetInBuffer ∧
      (segIdx s d sr).endOffsetInBuffer < (segIdx s d sr).bufferDuration := by
  have hB := bufferDuration_pos s d sr hsr
  simp only [segIdx] at hB ⊢
  rw [Int.fdiv_eq_ediv _ (le_of_lt hB)]
  rw [show ∀ a b : ℤ, a - a / b * b = a - b * (a / b) from fun a b => by ring]
  rw [← Int.emod_def]
  exact ⟨Int.emod_nonneg _ (ne_of_gt hB), Int.emod_lt_of_pos _ hB⟩

/-- C1. For each chunk touched by a `createSegmentBuffer` request, the
sub-range of that chunk's decoded channel data copied into the output is:
`[1105 + startOffsetInChunk, 1105 + startOffsetInChunk + totalRequestedSamples)`
when the chunk is both first and last; `[1105 + startOffsetInChunk,
1105 + chunkSampleCount)` when first but not last; `[1105,
1105 + endOffsetInChunk)` when last but not first; `[1105,
1105 + chunkSampleCount)` when interior — 1105 being the fixed encoder
priming offset — and the pieces are appended in ascending chunk-index
order at consecutive write offsets per channel (each piece lands at the
sum of the lengths of all earlier pieces). -/
theorem c1_chunk_read_ranges (s d : ℚ) (sr : ℕ) (hd : 0 ≤ d) (hsr : 0 < sr)
    (cd : ℤ → List ℚ) :
    copyWrites (segIdx s d sr) cd =
      (List.range (chunkCount (segIdx s d sr))).map (fun (k : ℕ) =>
        let p := segIdx s d sr
        let bufIdx := p.startBufferIdx + (k : ℤ)
        let r : ℤ × ℤ :=
          if k = 0 ∧ k + 1 = chunkCount p then
            (1105 + p.startOffsetInBuffer, 1105 + p.startOffsetInBuffer + p.totalSamples)
          else if k = 0 then
            (1105 + p.startOffsetInBuffer, 1105 + p.bufferDuration)
          else if k + 1 = chunkCount p then
            (1105, 1105 + p.endOffsetInBuffer)
          else
            (1105, 1105 + p.bufferDuration)
        (offsetAt p cd p.startBufferIdx k, sliceList (cd bufIdx) r.1 r.2)) := by
  rw [copyWrites_eq]
  refine List.map_congr_left ?_
  intro k hk
  have hk' : k < chunkCount (segIdx s d sr) := List.mem_range.mp hk
  have hle := startBufferIdx_le_endBufferIdx s d sr hd hsr
  have hfirst : ((segIdx s d sr).startBufferIdx + (k : ℤ) = (segIdx s d sr).startBufferIdx)
      ↔ (k = 0) := by omega
  have hlast : ((segIdx s d sr).startBufferIdx + (k : ℤ) = (segIdx s d sr).endBufferIdx)
      ↔ (k + 1 = chunkCount (segIdx s d sr)) := by
    unfold chunkCount at hk' ⊢
    omega
  simp only [piece, readRange, MP3_PADING_SAMPLES, hfirst, hlast]

/-- Witness for C1: the hypotheses hold at `startSec = 59`, `durationSec = 2`,
`sampleRate = 1` (a request crossing the chunk-0/chunk-1 boundary). -/
theorem c1_chunk_read_ranges_witness :
    (0:ℚ) ≤ 2 ∧ 0 < 1 ∧
    copyWrites (segIdx 59 2 1) (fun _ => []) =
      (List.range (chunkCount (segIdx 59 2 1))).map (fun (k : ℕ) =>
        let p := segIdx 59 2 1
        let bufIdx := p.startBufferIdx + (k : ℤ)
        let r : ℤ × ℤ :=
          if k = 0 ∧ k + 1 = chunkCount p then
            (1105 + p.startOffsetInBuffer, 1105 + p.startOffsetInBuffer + p.totalSamples)
          else if k = 0 then
            (1105 + p.startOffsetInBuffer, 1105 + p.bufferDuration)
          else if k + 1 = chunkCount p then
            (1105, 1105 + p.endOffsetInBuffer)
          else
            (1105, 1105 + p.bufferDuration)
        (offsetAt p (fun _ => []) p.startBufferIdx k, sliceList ((fun (_ : ℤ) => ([] : List ℚ)) bufIdx) r.1 r.2)) :=
  ⟨by decide, by decide, c1_chunk_read_ranges 59 2 1 (by decide) (by decide) (fun _ => [])⟩

/-- C3 (the code, evaluated at the spec's own example): for segments with
sceneIds `[A,A,A,B,B,C]`, starting non-single-loop playback at index 1
(whose sceneId is `A`), the freshly computed scene range has `beginIdx 0`
but `endIdx 6` — the segment count — not `3` as the claim states: the
forward search compares each `sceneId` against `sceneId + 1`, which for
string scene ids is the concatenation `"A1"` and never matches, so the
`-1` fallback to `segments.length` is always taken. Starting at index 5
yields `endIdx = 6` as claimed, but only via the same fallback. -/
theorem c3_scene_range_eval :
    sceneRange ["A", "A", "A", "B", "B", "C"] 1 "A" = (0, 6) ∧
    (sceneRange ["A", "A", "A", "B", "B", "C"] 1 "A").2 ≠ 3 ∧
    sceneRange ["A", "A", "A", "B", "B", "C"] 5 "C" = (5, 6) := by
  decide

/-- C4 counterexample: two callers both find the cache slot empty before
either decode completes — schedule: caller 0 checks and issues a read,
caller 1 checks and issues a second read, then both finish. Both calls
complete, yet two read-and-decode sequences were issued for the same
chunk index, contradicting the claimed at-most-one-decode guarantee. -/
theorem c4_duplicate_decode_counterexample :
    (concRun (concInit 2) [0, 1, 0, 0, 1, 1]).reads = 2 ∧
    (concRun (concInit 2) [0, 1, 0, 0, 1, 1]).pcs = [TaskPC.finished, TaskPC.finished] := by
  decide

lemma concStep_stable (s : ConcState) (t : ℕ)
    (hc : s.cacheFilled = true)
    (hp : ∀ pc ∈ s.pcs, pc = TaskPC.finished ∨ pc = TaskPC.checking) :
    (concStep s t).cacheFilled = true ∧ (concStep s t).reads = s.reads ∧
      (∀ pc ∈ (concStep s t).pcs, pc = TaskPC.finished ∨ pc = TaskPC.checking) := by
  unfold concStep
  cases hget : s.pcs.get? t with
  | none => exact ⟨hc, rfl, hp⟩
  | some pc =>
    rcases hp pc (List.get?_mem hget) with h | h <;> subst h
    · exact ⟨hc, rfl, hp⟩
    · rw [if_pos hc]
      refine ⟨hc, rfl, ?_⟩
      intro pc' hpc'
      rcases List.mem_or_eq_of_mem_set hpc' with h' | h'
      · exact hp pc' h'
      · exact Or.inl h'

lemma concRun_stable (sched : List ℕ) :
    ∀ s : ConcState, s.cacheFilled = true →
      (∀ pc ∈ s.pcs, pc = TaskPC.finished ∨ pc = TaskPC.checking) →
      (concRun s sched).reads = s.reads := by
  induction sched with
  | nil => intro s _ _; rfl
  | cons t rest ih =>
    intro s hc hp
    have h := concStep_stable s t hc hp
    have : concRun s (t :: rest) = concRun (concStep s t) rest := rfl
    rw [this, ih (concStep s t) h.1 h.2.2, h.2.1]

/-- C4 amended: the cache deduplicates only across completed decodes. A
caller that first checks the slot after another caller's decode has
completed and been installed reuses the cached chunk and issues no new
read (schedules `[0,0,0]` then task 1, and in fact any continuation after
`[0,0,0]`, keep the read count at 1); but while a decode is merely in
flight the slot is still empty and a concurrent caller issues its own
read-and-decode, as the counterexample shows. -/
theorem c4_dedup_only_after_completion :
    (concRun (concInit 2) [0, 0, 0]).pcs = [TaskPC.finished, TaskPC.checking] ∧
    (concRun (concInit 2) [0, 0, 0, 1]).pcs = [TaskPC.finished, TaskPC.finished] ∧
    (concRun (concInit 2) [0, 0, 0, 1]).reads = 1 ∧
    ∀ sched : List ℕ, (concRun (concInit 2) ([0, 0, 0] ++ sched)).reads = 1 := by
  refine ⟨by decide, by decide, by decide, ?_⟩
  intro sched
  have hrun : concRun (concInit 2) ([0, 0, 0] ++ sched)
      = concRun (concRun (concInit 2) [0, 0, 0]) sched := by
    unfold concRun
    exact List.foldl_append _ _ _ _
  have hbase : concRun (concInit 2) [0, 0, 0]
      = { cacheFilled := true, pcs := [TaskPC.finished, TaskPC.checking], reads := 1 } := by
    decide
  rw [hrun, hbase]
  exact concRun_stable sched _ rfl (by decide)

/-- C6 counterexample: with the controller previously at index 0 (both in
state and in its durable copy), a failing play request for index 1 is
caught and surfaced, but leaves `segIndex` and the persisted index at 1 —
the requested index — not at 0 as they were before the failed call: the
code persists the index (page.tsx lines 298–299) before the fallible
buffer request (line 303). -/
theorem c6_error_counterexample :
    ((playAudioSegment [⟨0, 1, "a", "s"⟩, ⟨2, 3, "b", "s"⟩] true (Except.error "boom")
        ⟨none, 0, 0, ""⟩ 1 false none).1.savedIndex = 1) ∧
    ((⟨none, 0, 0, ""⟩ : ControllerState).savedIndex = 0) ∧
    ((playAudioSegment [⟨0, 1, "a", "s"⟩, ⟨2, 3, "b", "s"⟩] true (Except.error "boom")
        ⟨none, 0, 0, ""⟩ 1 false none).1.segIndex = 1) := by
  refine ⟨rfl, rfl, rfl⟩

/-- C6 amended: any buffer-manager error during `playAudioSegment` is
caught and surfaced as the status message `Error playing audio segment`,
and leaves the controller Idle — no active source node (`playInfo = none`)
— but with `segIndex` and its durable persisted copy set to the requested
index (they are updated before the fallible buffer request, so the
pre-call values are not restored). -/
theorem c6_error_leaves_idle (segments : List SegmentM) (st : ControllerState)
    (index : ℕ) (singleEntryLoop : Bool) (initRangeInfo : Option RangeInfoM)
    (msg : String) (seg : SegmentM) (hseg : segments.get? index = some seg) :
    (playAudioSegment segments true (Except.error msg) st index singleEntryLoop
        initRangeInfo).1 =
      { playInfo := none, segIndex := index, savedIndex := index,
        status := "Error playing audio segment" } ∧
    (playAudioSegment segments true (Except.error msg) st index singleEntryLoop
        initRangeInfo).2 = some (seg.startTime, seg.endTime - seg.startTime) := by
  unfold playAudioSegment
  rw [hseg]
  exact ⟨rfl, rfl⟩

/-- Witness for C6 amended: concrete segments, state and index. -/
theorem c6_error_leaves_idle_witness :
    (([⟨0, 1, "a", "s"⟩] : List SegmentM).get? 0 = some ⟨0, 1, "a", "s"⟩) ∧
    ((playAudioSegment [⟨0, 1, "a", "s"⟩] true (Except.error "io") ⟨some ⟨none⟩, 5, 5, "x"⟩
        0 false none).1 =
      { playInfo := none, segIndex := 0, savedIndex := 0,
        status := "Error playing audio segment" } ∧
     (playAudioSegment [⟨0, 1, "a", "s"⟩] true (Except.error "io") ⟨some ⟨none⟩, 5, 5, "x"⟩
        0 false none).2 = some ((⟨0, 1, "a", "s"⟩ : SegmentM).startTime,
          (⟨0, 1, "a", "s"⟩ : SegmentM).endTime - (⟨0, 1, "a", "s"⟩ : SegmentM).startTime)) :=
  ⟨rfl, c6_error_leaves_idle [⟨0, 1, "a", "s"⟩] ⟨some ⟨none⟩, 5, 5, "x"⟩ 0 false none
    "io" ⟨0, 1, "a", "s"⟩ rfl⟩

/-- C7. Segment boundary widening happens exactly once, at ingestion: each
parsed segment's rounded times are adjusted by `min(400 ms, previousGap/2)`
/ `min(400 ms, nextGap/2)` against the neighbours' original
(pre-adjustment) times (the `specWiden` formula); the first segment's
start and the last segment's end are unchanged; and playback passes the
ingested (widened) times to the buffer manager without further
adjustment. -/
theorem c7_boundary_widening (all : List (ℤ × ℤ)) :
    (adjustSegments all).length = all.length ∧
    (∀ (idx : ℕ) (a b : ℤ), all.get? idx = some (a, b) →
      (adjustSegments all).get? idx = some (specWiden all idx a b)) ∧
    (∀ a b : ℤ, all.get? 0 = some (a, b) →
      ∃ endV : ℚ, (adjustSegments all).get? 0 = some ((a : ℚ) / 1000, endV)) ∧
    (∀ a b : ℤ, all.get? (all.length - 1) = some (a, b) →
      ∃ startV : ℚ,
        (adjustSegments all).get? (all.length - 1) = some (startV, (b : ℚ) / 1000)) ∧
    (∀ (segments : List SegmentM) (st : ControllerState) (index : ℕ)
      (sl : Bool) (ir : Option RangeInfoM) (outcome : Except String Unit)
      (seg : SegmentM), segments.get? index = some seg →
      (playAudioSegment segments true outcome st index sl ir).2 =
        some (seg.startTime, seg.endTime - seg.startTime)) := by
  have hpoint : ∀ (idx : ℕ) (a b : ℤ), all.get? idx = some (a, b) →
      (adjustSegments all).get? idx = some (specWiden all idx a b) := by
    intro idx a b hget
    unfold adjustSegments
    rw [List.get?_map, List.get?_enum, hget]
    rfl
  refine ⟨by simp [adjustSegments], hpoint, ?_, ?_, ?_⟩
  · intro a b hget
    refine ⟨(specWiden all 0 a b).2, ?_⟩
    rw [hpoint 0 a b hget]
    congr 1
    unfold specWiden
    norm_num
  · intro a b hget
    refine ⟨(specWiden all (all.length - 1) a b).1, ?_⟩
    have hlen : 1 ≤ all.length := by
      by_contra hcon
      have : all.length = 0 := by omega
      rw [List.get?_eq_none.mpr (by omega)] at hget
      exact Option.noConfusion hget
    have hnone : all.get? (all.length - 1 + 1) = none := by
      apply List.get?_eq_none.mpr
      omega
    rw [hpoint _ a b hget]
    congr 1
    unfold specWiden
    rw [hnone]
    norm_num
  · intro segments st index sl ir outcome seg hseg
    unfold playAudioSegment
    rw [hseg]
    cases outcome <;> rfl

/-- Witness for C7: two segments with original times `(0, 1000)` and
`(1600, 3000)` (in milliseconds); all implications instantiated. -/
theorem c7_boundary_widening_witness :
    (([((0 : ℤ), (1000 : ℤ)), ((1600 : ℤ), (3000 : ℤ))] : List (ℤ × ℤ)).get? 1 =
      some (1600, 3000)) ∧
    ((adjustSegments [(0, 1000), (1600, 3000)]).get? 1 =
      some (specWiden [(0, 1000), (1600, 3000)] 1 1600 3000)) ∧
    (∃ endV : ℚ, (adjustSegments [(0, 1000), (1600, 3000)]).get? 0 =
      some (((0 : ℤ) : ℚ) / 1000, endV)) ∧
    (∃ startV : ℚ,
      (adjustSegments [(0, 1000), (1600, 3000)]).get?
          (([((0 : ℤ), (1000 : ℤ)), ((1600 : ℤ), (3000 : ℤ))] : List (ℤ × ℤ)).length - 1) =
        some (startV, ((3000 : ℤ) : ℚ) / 1000)) ∧
    ((playAudioSegment [⟨1, 2, "t", "sc"⟩] true (Except.ok ()) ⟨none, 0, 0, ""⟩
        0 true none).2 =
      some ((⟨1, 2, "t", "sc"⟩ : SegmentM).startTime,
        (⟨1, 2, "t", "sc"⟩ : SegmentM).endTime - (⟨1, 2, "t", "sc"⟩ : SegmentM).startTime)) :=
  ⟨rfl,
   (c7_boundary_widening [(0, 1000), (1600, 3000)]).2.1 1 1600 3000 rfl,
   (c7_boundary_widening [(0, 1000), (1600, 3000)]).2.2.1 0 1000 rfl,
   (c7_boundary_widening [(0, 1000), (1600, 3000)]).2.2.2.1 1600 3000 rfl,
   (c7_boundary_widening [(0, 1000), (1600, 3000)]).2.2.2.2 [⟨1, 2, "t", "sc"⟩]
     ⟨none, 0, 0, ""⟩ 0 true none (Except.ok ()) ⟨1, 2, "t", "sc"⟩ rfl⟩

lemma int16_no_wrap (t : ℤ) (h1 : -32768 ≤ t) (h2 : t ≤ 32767) :
    (if t % 65536 < 32768 then t % 65536 else t % 65536 - 65536) = t := by
  split_ifs <;> omega

lemma int16Convert_eq_truncQ (x : ℚ) (h1 : -32768 ≤ truncQ x) (h2 : truncQ x ≤ 32767) :
    int16Convert x = truncQ x := by
  unfold int16Convert
  exact int16_no_wrap (truncQ x) h1 h2

lemma scaled_trunc_bounds (x : ℚ) :
    -32768 ≤ truncQ (if max (-1) (min 1 x) < 0 then max (-1) (min 1 x) * 32768
        else max (-1) (min 1 x) * 32767) ∧
      truncQ (if max (-1) (min 1 x) < 0 then max (-1) (min 1 x) * 32768
        else max (-1) (min 1 x) * 32767) ≤ 32767 := by
  set s : ℚ := max (-1) (min 1 x) with hs
  have hs1 : -1 ≤ s := le_max_left _ _
  have hs2 : s ≤ 1 := max_le (by norm_num) (min_le_left _ _)
  by_cases hneg : s < 0
  · rw [if_pos hneg]
    have hv0 : s * 32768 < 0 := by nlinarith
    have hv1 : (-32768 : ℚ) ≤ s * 32768 := by nlinarith
    unfold truncQ
    rw [if_pos hv0]
    constructor
    · calc (-32768 : ℤ) = ⌈((-32768 : ℤ) : ℚ)⌉ := (Int.ceil_intCast _).symm
        _ ≤ ⌈s * 32768⌉ := Int.ceil_le_ceil (by push_cast; linarith)
    · calc ⌈s * 32768⌉ ≤ ⌈((0 : ℤ) : ℚ)⌉ := Int.ceil_le_ceil (by push_cast; linarith)
        _ = 0 := Int.ceil_intCast _
        _ ≤ 32767 := by omega
  · rw [if_neg hneg]
    have hsn : 0 ≤ s := not_lt.mp hneg
    have hv0 : 0 ≤ s * 32767 := by nlinarith
    have hv1 : s * 32767 ≤ 32767 := by nlinarith
    unfold truncQ
    rw [if_neg (not_lt.mpr hv0)]
    constructor
    · calc (-32768 : ℤ) ≤ 0 := by omega
        _ = ⌊((0 : ℤ) : ℚ)⌋ := (Int.floor_intCast _).symm
        _ ≤ ⌊s * 32767⌋ := Int.floor_le_floor (by push_cast; linarith)
    · calc ⌊s * 32767⌋ ≤ ⌊((32767 : ℤ) : ℚ)⌋ := Int.floor_le_floor (by push_cast; linarith)
        _ = 32767 := Int.floor_intCast _

/-- C8. During splitting, every floating-point sample is clamped to
`[-1, 1]` and quantized with the asymmetric scaling — a clamped value `s`
maps to `s·32768` when `s < 0` and to `s·32767` when `s ≥ 0`, truncated to
an integer (the 16-bit wrap of the `Int16Array` store never kicks in: the
result always lies in `[-32768, 32767]`) — and the quantized output has
exactly as many samples as the input. -/
theorem c8_quantization (input : List ℚ) :
    (floatTo16BitPCM input).length = input.length ∧
    ∀ (i : ℕ) (x : ℚ), input.get? i = some x →
      (floatTo16BitPCM input).get? i =
        some (truncQ (if max (-1) (min 1 x) < 0 then max (-1) (min 1 x) * 32768
          else max (-1) (min 1 x) * 32767)) ∧
      -32768 ≤ truncQ (if max (-1) (min 1 x) < 0 then max (-1) (min 1 x) * 32768
          else max (-1) (min 1 x) * 32767) ∧
      truncQ (if max (-1) (min 1 x) < 0 then max (-1) (min 1 x) * 32768
          else max (-1) (min 1 x) * 32767) ≤ 32767 := by
  constructor
  · simp [floatTo16BitPCM]
  · intro i x hx
    have hb := scaled_trunc_bounds x
    refine ⟨?_, hb.1, hb.2⟩
    unfold floatTo16BitPCM
    rw [List.get?_map, hx]
    simp only [Option.map_some']
    congr 1
    exact int16Convert_eq_truncQ _ hb.1 hb.2

/-- Witness for C8: input `[2, -2, 1/2]`, instantiated at index 2. -/
theorem c8_quantization_witness :
    (([2, -2, 1/2] : List ℚ).get? 2 = some (1/2)) ∧
    ((floatTo16BitPCM [2, -2, 1/2]).get? 2 =
      some (truncQ (if max (-1) (min 1 (1/2 : ℚ)) < 0
        then max (-1) (min 1 (1/2 : ℚ)) * 32768
        else max (-1) (min 1 (1/2 : ℚ)) * 32767)) ∧
     -32768 ≤ truncQ (if max (-1) (min 1 (1/2 : ℚ)) < 0
        then max (-1) (min 1 (1/2 : ℚ)) * 32768
        else max (-1) (min 1 (1/2 : ℚ)) * 32767) ∧
     truncQ (if max (-1) (min 1 (1/2 : ℚ)) < 0
        then max (-1) (min 1 (1/2 : ℚ)) * 32768
        else max (-1) (min 1 (1/2 : ℚ)) * 32767) ≤ 32767) :=
  ⟨rfl, (c8_quantization [2, -2, 1/2]).2 2 (1/2) rfl⟩

/-- C9. `initSample` clears the chunk cache before checking whether chunk
0 exists, so a re-initialization that fails because chunk 0 is absent
returns `false` and leaves the manager unloaded — `isLoaded` is false and
any subsequent `createSegmentBuffer` throws `Not yet loaded` — whatever
state (including a previously successful initialization on another
project) the manager was in before. -/
theorem c9_failed_reinit_unloads (fs : OpfsModel) (st : AudioSampleState)
    (h : fs.exist 0 = false) :
    initSample fs st = .ok ({ st with buffers := fun _ => none }, false) ∧
    isLoaded { st with buffers := fun _ => none } = false ∧
    ∀ s d : ℚ, createSegmentBuffer fs { st with buffers := fun _ => none } s d =
      .error "Not yet loaded" := by
  refine ⟨?_, rfl, ?_⟩
  · unfold initSample
    rw [if_pos h]
  · intro s d
    unfold createSegmentBuffer
    rw [if_pos rfl]

/-- Witness for C9: a store with no files at all, applied to a manager
state that is currently loaded (chunk 0 resolved in cache). -/
theorem c9_failed_reinit_unloads_witness :
    ((OpfsModel.mk (fun _ => false) (fun _ => none)).exist 0 = false) ∧
    (isLoaded (AudioSampleState.mk
      (fun j => if j = 0 then some (.resolved ⟨1, 0, 44100, [[]]⟩) else none) 1 44100) =
      true) ∧
    (initSample (OpfsModel.mk (fun _ => false) (fun _ => none))
        (AudioSampleState.mk
          (fun j => if j = 0 then some (.resolved ⟨1, 0, 44100, [[]]⟩) else none) 1 44100) =
      .ok ({ AudioSampleState.mk
          (fun j => if j = 0 then some (.resolved ⟨1, 0, 44100, [[]]⟩) else none) 1 44100
          with buffers := fun _ => none }, false) ∧
     isLoaded { AudioSampleState.mk
          (fun j => if j = 0 then some (.resolved ⟨1, 0, 44100, [[]]⟩) else none) 1 44100
          with buffers := fun _ => none } = false ∧
     ∀ s d : ℚ, createSegmentBuffer (OpfsModel.mk (fun _ => false) (fun _ => none))
        { AudioSampleState.mk
          (fun j => if j = 0 then some (.resolved ⟨1, 0, 44100, [[]]⟩) else none) 1 44100
          with buffers := fun _ => none } s d = .error "Not yet loaded") :=
  ⟨rfl, rfl, c9_failed_reinit_unloads _ _ rfl⟩

lemma touchedChunks_split (p : SegIdx) (k : ℕ) (hk : k < chunkCount p) :
    touchedChunks p =
      ((List.range k).map (fun (j : ℕ) => p.startBufferIdx + (j : ℤ))) ++
        (p.startBufferIdx + (k : ℤ)) ::
          ((List.range (chunkCount p - k - 1)).map
            (fun (j : ℕ) => p.startBufferIdx + (k : ℤ) + 1 + (j : ℤ))) := by
  unfold touchedChunks
  obtain ⟨m, hm⟩ : ∃ m, chunkCount p - k - 1 = m := ⟨_, rfl⟩
  have hcnt : chunkCount p = k + (m + 1) := by omega
  rw [hm, hcnt, List.range_add, List.map_append, List.map_map,
    List.range_succ_eq_map, List.map_cons, List.map_map]
  congr 1
  refine congrArg₂ List.cons ?_ ?_
  · simp
  · refine List.map_congr_left ?_
    intro j _
    simp only [Function.comp_apply, Nat.succ_eq_add_one]
    push_cast
    ring

lemma fetchChunks_hangs (fs : OpfsModel) :
    ∀ (pre : List ℤ) (st : AudioSampleState) (i : ℤ) (post : List ℤ),
      st.buffers i = some .pendingForever →
      i ∉ pre →
      (∀ j ∈ pre, st.buffers j = none → fs.readDecode j ≠ none) →
      fetchChunks fs st (pre ++ i :: post) = .hangs := by
  intro pre
  induction pre with
  | nil =>
    intro st i post hi _ _
    simp only [List.nil_append, fetchChunks, fetchChunk, hi]
  | cons a t ih =>
    intro st i post hi hnot hpre
    have hia : i ≠ a := fun h => hnot (h ▸ List.mem_cons_self a t)
    simp only [List.cons_append, fetchChunks]
    cases hb : st.buffers a with
    | none =>
      cases hrd : fs.readDecode a with
      | none => exact absurd hrd (hpre a (List.mem_cons_self a t) hb)
      | some ab =>
        simp only [fetchChunk, hb, hrd]
        apply ih
        · simp only [updateBuf]
          rw [if_neg hia]
          exact hi
        · exact fun h => hnot (List.mem_cons_of_mem a h)
        · intro j hj hjnone
          simp only [updateBuf] at hjnone
          by_cases hja : j = a
          · rw [if_pos hja] at hjnone
            exact Option.noConfusion hjnone
          · rw [if_neg hja] at hjnone
            exact hpre j (List.mem_cons_of_mem a hj) hjnone
    | some entry =>
      cases entry with
      | resolved ab =>
        simp only [fetchChunk, hb]
        apply ih st i post hi (fun h => hnot (List.mem_cons_of_mem a h))
        exact fun j hj hjnone => hpre j (List.mem_cons_of_mem a hj) hjnone
      | pendingForever =>
        simp only [fetchChunk, hb]

/-- C10. If the background prefetch's read or decode fails after its
pending promise has been installed, the cache slot for `endChunk + 1`
holds a promise that never settles; and any later `createSegmentBuffer`
call whose touched range contains a chunk with such a never-settling
entry (and that does not fail on an earlier missing/corrupt chunk first)
never completes — it awaits the pending promise forever, surfacing no
error to its caller. -/
theorem c10_failed_prefetch_poisons_cache (fs : OpfsModel) (st : AudioSampleState)
    (e : ℤ) (h1 : st.buffers (e + 1) = none) (h2 : fs.exist (e + 1) = true)
    (h3 : fs.readDecode (e + 1) = none) :
    (prefetchStep fs st e).buffers (e + 1) = some .pendingForever ∧
    (∀ (fs2 : OpfsModel) (st2 : AudioSampleState) (s d : ℚ) (i : ℤ),
      st2.buffers 0 ≠ none →
      st2.buffers i = some .pendingForever →
      i ∈ touchedChunks (segIdx s d st2.sampleRate) →
      (∀ j ∈ touchedChunks (segIdx s d st2.sampleRate), j < i →
        st2.buffers j = none → fs2.readDecode j ≠ none) →
      createSegmentBuffer fs2 st2 s d = .hangs) := by
  constructor
  · simp [prefetchStep, h1, h2, h3, updateBuf]
  · intro fs2 st2 s d i h0 hpend hmem hearlier
    unfold touchedChunks at hmem
    obtain ⟨k, hkr, hke⟩ := List.mem_map.mp hmem
    have hk : k < chunkCount (segIdx s d st2.sampleRate) := List.mem_range.mp hkr
    have hsplit := touchedChunks_split (segIdx s d st2.sampleRate) k hk
    simp only [createSegmentBuffer, if_neg h0]
    rw [hsplit]
    have hpre : ∀ j ∈ (List.range k).map
        (fun (j : ℕ) => (segIdx s d st2.sampleRate).startBufferIdx + (j : ℤ)),
        st2.buffers j = none → fs2.readDecode j ≠ none := by
      intro j hj hjnone
      obtain ⟨j', hj'r, hj'e⟩ := List.mem_map.mp hj
      have hj' : j' < k := List.mem_range.mp hj'r
      refine hearlier j ?_ ?_ hjnone
      · unfold touchedChunks
        exact List.mem_map.mpr ⟨j', List.mem_range.mpr (by omega), hj'e⟩
      · rw [← hke, ← hj'e]
        have : (j' : ℤ) < (k : ℤ) := by exact_mod_cast hj'
        omega
    have hno : ((segIdx s d st2.sampleRate).startBufferIdx + (k : ℤ)) ∉
        (List.range k).map
          (fun (j : ℕ) => (segIdx s d st2.sampleRate).startBufferIdx + (j : ℤ)) := by
      intro hin
      obtain ⟨j', hj'r, hj'e⟩ := List.mem_map.mp hin
      have hj' : j' < k := List.mem_range.mp hj'r
      have : (j' : ℤ) = (k : ℤ) := by omega
      omega
    rw [hke] at hno ⊢
    rw [fetchChunks_hangs fs2 _ st2 i _ hpend hno hpre]

/-- Witness for C10: a one-chunk store whose chunk-1 file exists but whose
read/decode fails, with chunk 0 loaded; `e = 0`. -/
theorem c10_failed_prefetch_poisons_cache_witness :
    ((AudioSampleState.mk
        (fun j => if j = 0 then some (.resolved ⟨1, 0, 1, [[]]⟩) else none) 1 1).buffers
        ((0 : ℤ) + 1) = none) ∧
    ((OpfsModel.mk (fun _ => true) (fun _ => none)).exist ((0 : ℤ) + 1) = true) ∧
    ((OpfsModel.mk (fun _ => true) (fun _ => none)).readDecode ((0 : ℤ) + 1) = none) ∧
    ((prefetchStep (OpfsModel.mk (fun _ => true) (fun _ => none))
        (AudioSampleState.mk
          (fun j => if j = 0 then some (.resolved ⟨1, 0, 1, [[]]⟩) else none) 1 1)
        0).buffers ((0 : ℤ) + 1) = some .pendingForever) :=
  ⟨rfl, rfl, rfl,
    (c10_failed_prefetch_poisons_cache (OpfsModel.mk (fun _ => true) (fun _ => none))
      (AudioSampleState.mk
        (fun j => if j = 0 then some (.resolved ⟨1, 0, 1, [[]]⟩) else none) 1 1)
      0 rfl rfl rfl).1⟩

lemma createSegmentBuffer_ok_inv (fs : OpfsModel) (st : AudioSampleState)
    (s d : ℚ) (buf : AudioBufferM) (stF : AudioSampleState)
    (hcall : createSegmentBuffer fs st s d = .ok (buf, stF)) :
    ∃ st1, fetchChunks fs st (touchedChunks (segIdx s d st.sampleRate)) = .ok st1 ∧
      buf = mkSegmentBuffer (segIdx s d st.sampleRate) st1 ∧
      stF = prefetchStep fs st1 (segIdx s d st.sampleRate).endBufferIdx := by
  by_cases h0 : st.buffers 0 = none
  · simp only [createSegmentBuffer, if_pos h0] at hcall
    exact CallResult.noConfusion hcall
  · simp only [createSegmentBuffer, if_neg h0] at hcall
    cases hfc : fetchChunks fs st (touchedChunks (segIdx s d st.sampleRate)) with
    | ok st1 =>
      rw [hfc] at hcall
      cases hcall
      exact ⟨st1, rfl, rfl, rfl⟩
    | error e =>
      rw [hfc] at hcall
      exact CallResult.noConfusion hcall
    | hangs =>
      rw [hfc] at hcall
      exact CallResult.noConfusion hcall

/-- C5. A successful `createSegmentBuffer` call returns the buffer
assembled from the post-fetch cache, with the prefetch of chunk
`endChunk + 1` sequenced strictly afterwards and not awaited: the returned
buffer is computed before (and independently of) the prefetch, whose only
effect is on the cache. The prefetch runs a decode only if the slot is not
already populated and a file exists for it, touches no other slot and no
other state field, and a read/decode failure inside it is never
propagated — the call still returns `ok`; the slot is then left holding a
never-settling promise. -/
theorem c5_prefetch_after_assembly (fs : OpfsModel) (st : AudioSampleState)
    (s d : ℚ) (buf : AudioBufferM) (stF : AudioSampleState)
    (hcall : createSegmentBuffer fs st s d = .ok (buf, stF)) :
    (∃ st1, fetchChunks fs st (touchedChunks (segIdx s d st.sampleRate)) = .ok st1 ∧
      buf = mkSegmentBuffer (segIdx s d st.sampleRate) st1 ∧
      stF = prefetchStep fs st1 (segIdx s d st.sampleRate).endBufferIdx) ∧
    (∀ (fs2 : OpfsModel) (st2 : AudioSampleState) (e : ℤ),
      ((st2.buffers (e + 1)).isSome = true → prefetchStep fs2 st2 e = st2) ∧
      (fs2.exist (e + 1) = false → prefetchStep fs2 st2 e = st2) ∧
      (∀ j : ℤ, j ≠ e + 1 → (prefetchStep fs2 st2 e).buffers j = st2.buffers j) ∧
      ((prefetchStep fs2 st2 e).numOfChannels = st2.numOfChannels ∧
        (prefetchStep fs2 st2 e).sampleRate = st2.sampleRate) ∧
      (st2.buffers (e + 1) = none → fs2.exist (e + 1) = true →
        fs2.readDecode (e + 1) = none →
        (prefetchStep fs2 st2 e).buffers (e + 1) = some .pendingForever) ∧
      (∀ ab, st2.buffers (e + 1) = none → fs2.exist (e + 1) = true →
        fs2.readDecode (e + 1) = some ab →
        (prefetchStep fs2 st2 e).buffers (e + 1) = some (.resolved ab))) := by
  refine ⟨createSegmentBuffer_ok_inv fs st s d buf stF hcall, ?_⟩
  intro fs2 st2 e
  refine ⟨?_, ?_, ?_, ⟨?_, ?_⟩, ?_, ?_⟩
  · intro h
    simp [prefetchStep, h]
  · intro h
    by_cases hc : (st2.buffers (e + 1)).isSome = true
    · simp [prefetchStep, hc]
    · simp only [prefetchStep]
      rw [if_neg hc, if_pos h]
  · intro j hj
    simp only [prefetchStep]
    split_ifs
    · rfl
    · rfl
    · cases hrd : fs2.readDecode (e + 1) <;> simp [hrd, updateBuf, hj]
  · simp only [prefetchStep]
    split_ifs
    · rfl
    · rfl
    · cases hrd : fs2.readDecode (e + 1) <;> simp [hrd]
  · simp only [prefetchStep]
    split_ifs
    · rfl
    · rfl
    · cases hrd : fs2.readDecode (e + 1) <;> simp [hrd]
  · intro hn hex hrd
    simp [prefetchStep, hn, hex, hrd, updateBuf]
  · intro ab hn hex hrd
    simp [prefetchStep, hn, hex, hrd, updateBuf]

/-- Witness for C5: chunk 0 cached, a zero-length request, and a store
where the next chunk's file exists but its read/decode fails — the call
still succeeds. -/
theorem c5_prefetch_after_assembly_witness :
    ∃ (buf : AudioBufferM) (stF : AudioSampleState),
      createSegmentBuffer fsFailNext stFix 0 0 = .ok (buf, stF) ∧
      ((∃ st1, fetchChunks fsFailNext stFix
          (touchedChunks (segIdx 0 0 stFix.sampleRate)) = .ok st1 ∧
        buf = mkSegmentBuffer (segIdx 0 0 stFix.sampleRate) st1 ∧
        stF = prefetchStep fsFailNext st1 (segIdx 0 0 stFix.sampleRate).endBufferIdx) ∧
      (∀ (fs2 : OpfsModel) (st2 : AudioSampleState) (e : ℤ),
        ((st2.buffers (e + 1)).isSome = true → prefetchStep fs2 st2 e = st2) ∧
        (fs2.exist (e + 1) = false → prefetchStep fs2 st2 e = st2) ∧
        (∀ j : ℤ, j ≠ e + 1 → (prefetchStep fs2 st2 e).buffers j = st2.buffers j) ∧
        ((prefetchStep fs2 st2 e).numOfChannels = st2.numOfChannels ∧
          (prefetchStep fs2 st2 e).sampleRate = st2.sampleRate) ∧
        (st2.buffers (e + 1) = none → fs2.exist (e + 1) = true →
          fs2.readDecode (e + 1) = none →
          (prefetchStep fs2 st2 e).buffers (e + 1) = some .pendingForever) ∧
        (∀ ab, st2.buffers (e + 1) = none → fs2.exist (e + 1) = true →
          fs2.readDecode (e + 1) = some ab →
          (prefetchStep fs2 st2 e).buffers (e + 1) = some (.resolved ab)))) := by
  have h0 : ¬ (stFix.buffers 0 = none) := by simp [stFix]
  have hseg : segIdx 0 0 stFix.sampleRate = ⟨1, 0, 0, 60, 0, 0, 0, 0, 0⟩ := by
    simp [stFix, segIdx, AUDIO_BUFFER_SEGMENT_SEC]
  have htc : touchedChunks (segIdx 0 0 stFix.sampleRate) = [0] := by
    rw [hseg]
    simp [touchedChunks, chunkCount]
    decide
  have hfc : fetchChunks fsFailNext stFix [0] = .ok stFix := by
    simp [fetchChunks, fetchChunk, stFix]
  have hcall : createSegmentBuffer fsFailNext stFix 0 0 =
      .ok (mkSegmentBuffer (segIdx 0 0 stFix.sampleRate) stFix,
        prefetchStep fsFailNext stFix (segIdx 0 0 stFix.sampleRate).endBufferIdx) := by
    simp only [createSegmentBuffer, if_neg h0]
    rw [htc, hfc]
  exact ⟨_, _, hcall, c5_prefetch_after_assembly fsFailNext stFix 0 0 _ _ hcall⟩

lemma sliceList_length (xs : List ℚ) (a b : ℤ) :
    (sliceList xs a b).length = min (b - a).toNat (xs.length - a.toNat) := by
  simp [sliceList]

lemma segIdx_start_decomp (s d : ℚ) (sr : ℕ) :
    (segIdx s d sr).segmentStartIdx =
      (segIdx s d sr).startBufferIdx * (segIdx s d sr).bufferDuration +
        (segIdx s d sr).startOffsetInBuffer := by
  simp only [segIdx]
  ring

lemma segIdx_end_decomp (s d : ℚ) (sr : ℕ) :
    (segIdx s d sr).segmentEndIdx =
      (segIdx s d sr).endBufferIdx * (segIdx s d sr).bufferDuration +
        (segIdx s d sr).endOffsetInBuffer := by
  simp only [segIdx]
  ring

lemma segIdx_total (s d : ℚ) (sr : ℕ) :
    (segIdx s d sr).totalSamples =
      (segIdx s d sr).segmentEndIdx - (segIdx s d sr).segmentStartIdx := by
  simp only [segIdx]

/-- The slice the loop takes out of chunk `startBufferIdx + k` has exactly
the length prescribed by the read-range case analysis, provided the
decoded chunk holds at least `1105 + bufferDuration` samples. -/
lemma pieceLen_cases (s d : ℚ) (sr : ℕ) (hd : 0 ≤ d) (hsr : 0 < sr)
    (cd : ℤ → List ℚ)
    (hcd : ∀ i ∈ touchedChunks (segIdx s d sr),
      ((1105 : ℤ) + (segIdx s d sr).bufferDuration).toNat ≤ (cd i).length)
    (k : ℕ) (hk : k < chunkCount (segIdx s d sr)) :
    pieceLen (segIdx s d sr) cd ((segIdx s d sr).startBufferIdx + (k : ℤ)) =
      (if k = 0 ∧ k + 1 = chunkCount (segIdx s d sr) then
        (segIdx s d sr).totalSamples
       else if k = 0 then
        (segIdx s d sr).bufferDuration - (segIdx s d sr).startOffsetInBuffer
       else if k + 1 = chunkCount (segIdx s d sr) then
        (segIdx s d sr).endOffsetInBuffer
       else (segIdx s d sr).bufferDuration).toNat := by
  have hB := bufferDuration_pos s d sr hsr
  have hle := startBufferIdx_le_endBufferIdx s d sr hd hsr
  have haz := segmentStartIdx_le_endIdx s d sr hd
  have hs0 := startOffsetInBuffer_bounds s d sr hsr
  have he0 := endOffsetInBuffer_bounds s d sr hsr
  have hdc1 := segIdx_start_decomp s d sr
  have hdc2 := segIdx_end_decomp s d sr
  have htot := segIdx_total s d sr
  have hcnt : chunkCount (segIdx s d sr) =
      ((segIdx s d sr).endBufferIdx - (segIdx s d sr).startBufferIdx).toNat + 1 := rfl
  have hmem : (segIdx s d sr).startBufferIdx + (k : ℤ) ∈ touchedChunks (segIdx s d sr) := by
    unfold touchedChunks
    exact List.mem_map.mpr ⟨k, List.mem_range.mpr hk, rfl⟩
  have hlen := hcd _ hmem
  have hfirst : ((segIdx s d sr).startBufferIdx + (k : ℤ) = (segIdx s d sr).startBufferIdx)
      ↔ (k = 0) := by omega
  have hlast : ((segIdx s d sr).startBufferIdx + (k : ℤ) = (segIdx s d sr).endBufferIdx)
      ↔ (k + 1 = chunkCount (segIdx s d sr)) := by omega
  simp only [pieceLen, piece, readRange, MP3_PADING_SAMPLES, hfirst, hlast]
  split_ifs with h1 h2 h3
  · have hq : (segIdx s d sr).startBufferIdx = (segIdx s d sr).endBufferIdx := by
      have := hlast.mpr h1.2
      omega
    have hqe : (segIdx s d sr).segmentStartIdx - (segIdx s d sr).startOffsetInBuffer =
        (segIdx s d sr).segmentEndIdx - (segIdx s d sr).endOffsetInBuffer := by
      rw [hdc1, hdc2, hq]
      ring
    rw [sliceList_length]
    omega
  · rw [sliceList_length]
    omega
  · rw [sliceList_length]
    omega
  · rw [sliceList_length]
    omega

lemma sum_head_const (c0 c : ℕ) : ∀ m : ℕ,
    ((List.range (m + 1)).map (fun k => if k = 0 then c0 else c)).sum = c0 + m * c := by
  intro m
  induction m with
  | zero =>
    rw [show List.range 1 = [0] from rfl]
    simp
  | succ m ih =>
    rw [List.range_succ, List.map_append, List.sum_append, ih]
    simp [Nat.succ_ne_zero]
    ring

/-- The pieces copied from the touched chunks tile the output exactly:
their total length is `totalSamples`, however many chunk boundaries the
request crosses. -/
lemma offsetAt_total (s d : ℚ) (sr : ℕ) (hd : 0 ≤ d) (hsr : 0 < sr)
    (cd : ℤ → List ℚ)
    (hcd : ∀ i ∈ touchedChunks (segIdx s d sr),
      ((1105 : ℤ) + (segIdx s d sr).bufferDuration).toNat ≤ (cd i).length) :
    offsetAt (segIdx s d sr) cd (segIdx s d sr).startBufferIdx
      (chunkCount (segIdx s d sr)) = (segIdx s d sr).totalSamples.toNat := by
  have hB := bufferDuration_pos s d sr hsr
  have hle := startBufferIdx_le_endBufferIdx s d sr hd hsr
  have haz := segmentStartIdx_le_endIdx s d sr hd
  have hs0 := startOffsetInBuffer_bounds s d sr hsr
  have he0 := endOffsetInBuffer_bounds s d sr hsr
  have hdc1 := segIdx_start_decomp s d sr
  have hdc2 := segIdx_end_decomp s d sr
  have htot := segIdx_total s d sr
  have hmapeq : ∀ k ∈ List.range (chunkCount (segIdx s d sr)),
      pieceLen (segIdx s d sr) cd ((segIdx s d sr).startBufferIdx + (k : ℤ)) =
        (if k = 0 ∧ k + 1 = chunkCount (segIdx s d sr) then
          (segIdx s d sr).totalSamples
         else if k = 0 then
          (segIdx s d sr).bufferDuration - (segIdx s d sr).startOffsetInBuffer
         else if k + 1 = chunkCount (segIdx s d sr) then
          (segIdx s d sr).endOffsetInBuffer
         else (segIdx s d sr).bufferDuration).toNat :=
    fun k hk => pieceLen_cases s d sr hd hsr cd hcd k (List.mem_range.mp hk)
  have hcnt : chunkCount (segIdx s d sr) =
      ((segIdx s d sr).endBufferIdx - (segIdx s d sr).startBufferIdx).toNat + 1 := rfl
  unfold offsetAt
  rw [List.map_congr_left hmapeq]
  obtain ⟨n, hn⟩ : ∃ n, chunkCount (segIdx s d sr) = n + 1 := ⟨_, rfl⟩
  rcases n with _ | m
  · rw [hn, show List.range 1 = [0] from rfl]
    simp
  · have hq2 : (segIdx s d sr).endBufferIdx =
        (segIdx s d sr).startBufferIdx + ((m : ℤ) + 1) := by omega
    have htot2 : (segIdx s d sr).totalSamples =
        ((m : ℤ) + 1) * (segIdx s d sr).bufferDuration +
          (segIdx s d sr).endOffsetInBuffer - (segIdx s d sr).startOffsetInBuffer := by
      rw [htot]
      linear_combination hdc2 - hdc1 + (segIdx s d sr).bufferDuration * hq2
    rw [hn, List.range_succ, List.map_append, List.sum_append]
    have hinner : ∀ k ∈ List.range (m + 1),
        (if k = 0 ∧ k + 1 = m + 1 + 1 then
          (segIdx s d sr).totalSamples
         else if k = 0 then
          (segIdx s d sr).bufferDuration - (segIdx s d sr).startOffsetInBuffer
         else if k + 1 = m + 1 + 1 then
          (segIdx s d sr).endOffsetInBuffer
         else (segIdx s d sr).bufferDuration).toNat =
        (if k = 0 then
          ((segIdx s d sr).bufferDuration - (segIdx s d sr).startOffsetInBuffer).toNat
         else (segIdx s d sr).bufferDuration.toNat) := by
      intro k hk
      have hk' : k < m + 1 := List.mem_range.mp hk
      have hne : ¬ (k + 1 = m + 1 + 1) := by omega
      have hfalse : ¬ (k = 0 ∧ k + 1 = m + 1 + 1) := fun h => hne h.2
      rw [if_neg hfalse, if_neg hne]
      split_ifs with h0
      · rfl
      · rfl
    rw [List.map_congr_left hinner, sum_head_const]
    have hlastv : ¬ (m + 1 = 0) := by omega
    have hlastf : ¬ (m + 1 = 0 ∧ m + 1 + 1 = m + 1 + 1) := fun h => hlastv h.1
    simp only [List.map_cons, List.map_nil, List.sum_cons, List.sum_nil,
      if_neg hlastf, if_neg hlastv, if_pos rfl]
    have h1 : (0 : ℤ) ≤ (segIdx s d sr).bufferDuration - (segIdx s d sr).startOffsetInBuffer := by
      omega
    have h2 : (0 : ℤ) ≤ (segIdx s d sr).totalSamples := by omega
    have hZ : (((segIdx s d sr).bufferDuration -
          (segIdx s d sr).startOffsetInBuffer).toNat : ℤ) +
        (m : ℤ) * ((segIdx s d sr).bufferDuration.toNat : ℤ) +
        ((segIdx s d sr).endOffsetInBuffer.toNat : ℤ) =
        ((segIdx s d sr).totalSamples.toNat : ℤ) := by
      rw [Int.toNat_of_nonneg h1, Int.toNat_of_nonneg (le_of_lt hB),
        Int.toNat_of_nonneg he0.1, Int.toNat_of_nonneg h2]
      linear_combination -htot2
    have := hZ
    push_cast at this
    exact_mod_cast this

lemma fetchChunk_preserves (fs : OpfsModel) (st : AudioSampleState) (a : ℤ)
    (st' : AudioSampleState) (h : fetchChunk fs st a = .ok st') :
    st'.numOfChannels = st.numOfChannels ∧ st'.sampleRate = st.sampleRate := by
  unfold fetchChunk at h
  cases hb : st.buffers a with
  | none =>
    rw [hb] at h
    cases hrd : fs.readDecode a with
    | none =>
      rw [hrd] at h
      exact CallResult.noConfusion h
    | some ab =>
      rw [hrd] at h
      cases h
      exact ⟨rfl, rfl⟩
  | some entry =>
    cases entry with
    | resolved ab =>
      rw [hb] at h
      cases h
      exact ⟨rfl, rfl⟩
    | pendingForever =>
      rw [hb] at h
      exact CallResult.noConfusion h

lemma fetchChunks_preserves (fs : OpfsModel) :
    ∀ (l : List ℤ) (st st1 : AudioSampleState),
      fetchChunks fs st l = .ok st1 →
      st1.numOfChannels = st.numOfChannels ∧ st1.sampleRate = st.sampleRate := by
  intro l
  induction l with
  | nil =>
    intro st st1 h
    cases h
    exact ⟨rfl, rfl⟩
  | cons a t ih =>
    intro st st1 h
    unfold fetchChunks at h
    cases hfc : fetchChunk fs st a with
    | ok st' =>
      rw [hfc] at h
      have h1 := fetchChunk_preserves fs st a st' hfc
      have h2 := ih st' st1 h
      exact ⟨h2.1.trans h1.1, h2.2.trans h1.2⟩
    | error e =>
      rw [hfc] at h
      exact CallResult.noConfusion h
    | hangs =>
      rw [hfc] at h
      exact CallResult.noConfusion h

lemma initSample_ok_inv (fs : OpfsModel) (st0 st : AudioSampleState)
    (ab0 : AudioBufferM) (hdec : fs.readDecode 0 = some ab0)
    (hinit : initSample fs st0 = .ok (st, true)) :
    st.numOfChannels = ab0.numberOfChannels ∧ st.sampleRate = ab0.sampleRate ∧
      st.buffers 0 = some (.resolved ab0) := by
  unfold initSample at hinit
  by_cases hex : fs.exist 0 = false
  · rw [if_pos hex] at hinit
    exact absurd hinit (by simp)
  · rw [if_neg hex, hdec] at hinit
    cases hinit
    exact ⟨rfl, rfl, by simp [updateBuf]⟩

/-- C2. For every `startSec ≥ 0` and `durationSec ≥ 0`, after a
successful initialization, a successful `createSegmentBuffer` returns a
buffer whose per-channel sample count is exactly
`⌊(startSec+durationSec)·sampleRate⌋ − ⌊startSec·sampleRate⌋`, with
channel count and sample rate equal to those discovered from chunk 0;
moreover — regardless of how many chunks the range spans — the pieces
copied from the touched chunks sum to exactly that count (no off-by-one
accumulation across chunk boundaries), whenever each decoded chunk holds
the nominal `1105 + bufferDuration` samples. -/
theorem c2_segment_buffer_dimensions (fs : OpfsModel) (st0 st : AudioSampleState)
    (ab0 : AudioBufferM) (hdec : fs.readDecode 0 = some ab0)
    (hinit : initSample fs st0 = .ok (st, true))
    (s d : ℚ) (hs : 0 ≤ s) (hd : 0 ≤ d) (hsr : 0 < ab0.sampleRate)
    (buf : AudioBufferM) (stF : AudioSampleState)
    (hcall : createSegmentBuffer fs st s d = .ok (buf, stF)) :
    buf.numberOfChannels = ab0.numberOfChannels ∧
    buf.sampleRate = ab0.sampleRate ∧
    (buf.length : ℤ) = ⌊(s + d) * (ab0.sampleRate : ℚ)⌋ - ⌊s * (ab0.sampleRate : ℚ)⌋ ∧
    (∀ cd : ℤ → List ℚ,
      (∀ i ∈ touchedChunks (segIdx s d ab0.sampleRate),
        ((1105 : ℤ) + (segIdx s d ab0.sampleRate).bufferDuration).toNat ≤ (cd i).length) →
      offsetAt (segIdx s d ab0.sampleRate) cd (segIdx s d ab0.sampleRate).startBufferIdx
          (chunkCount (segIdx s d ab0.sampleRate)) =
        (segIdx s d ab0.sampleRate).totalSamples.toNat) := by
  obtain ⟨hch, hsr2, hb0⟩ := initSample_ok_inv fs st0 st ab0 hdec hinit
  obtain ⟨st1, hfc, hbuf, hstF⟩ := createSegmentBuffer_ok_inv fs st s d buf stF hcall
  obtain ⟨hch1, hsr1⟩ := fetchChunks_preserves fs _ st st1 hfc
  subst hbuf
  have htotnn : 0 ≤ (segIdx s d ab0.sampleRate).totalSamples := by
    have h := segmentStartIdx_le_endIdx s d ab0.sampleRate hd
    rw [segIdx_total]
    omega
  refine ⟨?_, ?_, ?_, ?_⟩
  · simp [mkSegmentBuffer, hch1, hch]
  · simp [mkSegmentBuffer, hsr1, hsr2]
  · simp only [mkSegmentBuffer, hsr2]
    rw [Int.toNat_of_nonneg htotnn, segIdx_total]
    simp [segIdx]
  · intro cd hcd
    exact offsetAt_total s d ab0.sampleRate hd hsr cd hcd

/-- Witness for C2: the store `fsChunk0` holding exactly chunk 0, a fresh
manager, and the request `[0, 2)` seconds at the discovered sample rate
1. -/
theorem c2_segment_buffer_dimensions_witness :
    ∃ (st : AudioSampleState) (buf : AudioBufferM) (stF : AudioSampleState),
      fsChunk0.readDecode 0 = some abFix ∧
      initSample fsChunk0 AudioSampleState.initial = .ok (st, true) ∧
      (0 : ℚ) ≤ 0 ∧ (0 : ℚ) ≤ 2 ∧ 0 < abFix.sampleRate ∧
      createSegmentBuffer fsChunk0 st 0 2 = .ok (buf, stF) ∧
      (buf.numberOfChannels = abFix.numberOfChannels ∧
       buf.sampleRate = abFix.sampleRate ∧
       (buf.length : ℤ) =
         ⌊((0 : ℚ) + 2) * (abFix.sampleRate : ℚ)⌋ - ⌊(0 : ℚ) * (abFix.sampleRate : ℚ)⌋ ∧
       (∀ cd : ℤ → List ℚ,
         (∀ i ∈ touchedChunks (segIdx 0 2 abFix.sampleRate),
           ((1105 : ℤ) + (segIdx 0 2 abFix.sampleRate).bufferDuration).toNat ≤
             (cd i).length) →
         offsetAt (segIdx 0 2 abFix.sampleRate) cd
             (segIdx 0 2 abFix.sampleRate).startBufferIdx
             (chunkCount (segIdx 0 2 abFix.sampleRate)) =
           (segIdx 0 2 abFix.sampleRate).totalSamples.toNat)) := by
  have hinit : initSample fsChunk0 AudioSampleState.initial =
      .ok (⟨updateBuf (fun _ => none) 0 (.resolved abFix),
        abFix.numberOfChannels, abFix.sampleRate⟩, true) := rfl
  have h0 : ¬ ((⟨updateBuf (fun _ => none) 0 (.resolved abFix),
      abFix.numberOfChannels, abFix.sampleRate⟩ : AudioSampleState).buffers 0 = none) := by
    simp [updateBuf]
  have hseg : segIdx 0 2 (⟨updateBuf (fun _ => none) 0 (.resolved abFix),
      abFix.numberOfChannels, abFix.sampleRate⟩ : AudioSampleState).sampleRate =
      ⟨1, 0, 2, 60, 0, 0, 0, 2, 2⟩ := by
    simp [abFix, segIdx, AUDIO_BUFFER_SEGMENT_SEC]
  have htc : touchedChunks (segIdx 0 2 (⟨updateBuf (fun _ => none) 0 (.resolved abFix),
      abFix.numberOfChannels, abFix.sampleRate⟩ : AudioSampleState).sampleRate) = [0] := by
    rw [hseg]
    simp [touchedChunks, chunkCount]
    decide
  have hfc : fetchChunks fsChunk0 (⟨updateBuf (fun _ => none) 0 (.resolved abFix),
      abFix.numberOfChannels, abFix.sampleRate⟩ : AudioSampleState) [0] =
      .ok ⟨updateBuf (fun _ => none) 0 (.resolved abFix),
        abFix.numberOfChannels, abFix.sampleRate⟩ := by
    simp [fetchChunks, fetchChunk, updateBuf]
  have hcall : createSegmentBuffer fsChunk0 (⟨updateBuf (fun _ => none) 0 (.resolved abFix),
      abFix.numberOfChannels, abFix.sampleRate⟩ : AudioSampleState) 0 2 =
      .ok (mkSegmentBuffer (segIdx 0 2 (⟨updateBuf (fun _ => none) 0 (.resolved abFix),
          abFix.numberOfChannels, abFix.sampleRate⟩ : AudioSampleState).sampleRate)
          ⟨updateBuf (fun _ => none) 0 (.resolved abFix),
            abFix.numberOfChannels, abFix.sampleRate⟩,
        prefetchStep fsChunk0
          ⟨updateBuf (fun _ => none) 0 (.resolved abFix),
            abFix.numberOfChannels, abFix.sampleRate⟩
          (segIdx 0 2 (⟨updateBuf (fun _ => none) 0 (.resolved abFix),
            abFix.numberOfChannels, abFix.sampleRate⟩ : AudioSampleState).sampleRate).endBufferIdx) := by
    simp only [createSegmentBuffer, if_neg h0]
    rw [htc, hfc]
  exact ⟨_, _, _, rfl, hinit, by decide, by decide, by decide, hcall,
    c2_segment_buffer_dimensions fsChunk0 AudioSampleState.initial _ abFix rfl hinit
      0 2 (by decide) (by decide) (by decide) _ _ hcall⟩
